import Mathlib

/-!
Verification development for the `wappylyzer` rule-matching engine
(`src/wappylyzer.py`).

The Python source is shallowly embedded here.  The program relies on the
CPython `re` module; the fragment of `re` that the rule corpus and the
claims exercise (literals, escapes, character classes with ranges,
grouping with alternation, greedy and lazy `*`/`+`/`?` quantifiers,
`.`, `^`, `$`, with the IGNORECASE and DOTALL flags, leftmost search,
anchored match, and capture groups with Python priority order) is
modelled by a small executable backtracking engine over `List Char`.
Python exceptions are modelled with `Except`; candidate values that may
be `None` are modelled with `Option`.
-/

namespace Wappylyzer

/-! ### The regex abstract syntax and backtracking engine -/

/-- Abstract syntax for the fragment of Python `re` patterns that the
program's rule corpus and the claims exercise.  `star` carries its
greediness; `bol` is the `^` anchor and `eol` the `$` anchor (Python
semantics without MULTILINE: `$` also matches just before a trailing
newline). -/
inductive Regex where
  | eps
  | chr (c : Char)
  | dot
  | cls (neg : Bool) (ranges : List (Char × Char))
  | seq (a b : Regex)
  | alt (a b : Regex)
  | star (greedy : Bool) (a : Regex)
  | group (idx : Nat) (a : Regex)
  | bol
  | eol
deriving DecidableEq

/-- Character comparison under the optional IGNORECASE flag. -/
def charEq (ic : Bool) (a b : Char) : Bool :=
  if ic then a.toLower == b.toLower else a == b

/-- Membership of a character in one class range. -/
def inRange (lo hi c : Char) : Bool :=
  decide (lo ≤ c) && decide (c ≤ hi)

/-- Membership of a character in a character class, honouring IGNORECASE
(a character matches if it, or a case-variant of it, lies in a range). -/
def clsMem (ic : Bool) (ranges : List (Char × Char)) (c : Char) : Bool :=
  ranges.any fun r =>
    inRange r.1 r.2 c ||
      (ic && (inRange r.1 r.2 c.toLower || inRange r.1 r.2 c.toUpper))

/-- Captured groups: group index paired with the captured characters.
Lookup takes the first entry, and new captures are consed at the front,
so the most recent capture of a group wins, as in Python. -/
abbrev Caps := List (Nat × List Char)

/-- The backtracking matcher.  `runF ic s fuel r p cp` returns, in
Python's backtracking priority order, the list of `(endPosition, caps)`
continuations of matching `r` inside `s` starting at position `p` with
captures-so-far `cp`.  The `fuel` argument only bounds the recursion
(each recursive call spends one unit); with the generous fuel supplied
by the wrappers below it is never exhausted.  A repetition body must
consume at least one character per iteration, as in Python's engine,
which also makes the fuel bound effective. -/
def runF (ic : Bool) (s : List Char) : Nat → Regex → Nat → Caps → List (Nat × Caps)
  | 0, _, _, _ => []
  | n + 1, r, p, cp =>
    match r with
    | .eps => [(p, cp)]
    | .chr c =>
      match s.drop p with
      | [] => []
      | x :: _ => if charEq ic c x then [(p + 1, cp)] else []
    | .dot =>
      -- DOTALL is always in force in this program: `.` matches any char
      if p < s.length then [(p + 1, cp)] else []
    | .cls neg ranges =>
      match s.drop p with
      | [] => []
      | x :: _ => if clsMem ic ranges x != neg then [(p + 1, cp)] else []
    | .seq a b =>
      (runF ic s n a p cp).flatMap fun q => runF ic s n b q.1 q.2
    | .alt a b => runF ic s n a p cp ++ runF ic s n b p cp
    | .star g a =>
      let step := (runF ic s n a p cp).filter fun q => decide (p < q.1)
      let cont := step.flatMap fun q => runF ic s n (.star g a) q.1 q.2
      if g then cont ++ [(p, cp)] else (p, cp) :: cont
    | .group k a =>
      (runF ic s n a p cp).map fun q =>
        (q.1, (k, (s.drop p).take (q.1 - p)) :: q.2)
    | .bol => if p == 0 then [(p, cp)] else []
    | .eol =>
      let rest := s.drop p
      if rest.isEmpty || rest == ['\n'] then [(p, cp)] else []

/-- Syntactic size of a regex, used to budget the matcher's fuel. -/
def sizeR : Regex → Nat
  | .seq a b => sizeR a + sizeR b + 1
  | .alt a b => sizeR a + sizeR b + 1
  | .star _ a => sizeR a + 1
  | .group _ a => sizeR a + 1
  | _ => 1

/-- Fuel budget: ample for a regex of this size on an input of this
length (recursion depth is bounded by the regex size plus the number of
repetition iterations, each of which consumes a character). -/
def fuelFor (r : Regex) (len : Nat) : Nat :=
  (sizeR r + 1) * (len + 2)

/-- A compiled pattern as produced by `compile_regex`: the parsed
syntax, the number of capture groups of the source pattern (Python's
`len(match.groups())`), and the IGNORECASE flag.  DOTALL is always set
by `compile_regex` and is built into the `dot` semantics. -/
structure CompiledRegex where
  ast : Regex
  ng : Nat
  ic : Bool
deriving DecidableEq

/-- Leftmost search loop: try each start position left to right, first
position with a match wins; models `pattern.search(value)`.  Returns
`(startPos, endPos, caps)`. -/
def searchLoop (ic : Bool) (r : Regex) (cs : List Char) :
    Nat → Nat → Option (Nat × Nat × Caps)
  | 0, _ => none
  | n + 1, p =>
    match (runF ic cs (fuelFor r cs.length) r p []).head? with
    | some q => some (p, q.1, q.2)
    | none => searchLoop ic r cs n (p + 1)

/-- `pattern.search(value)` — leftmost match anywhere in the string. -/
def reSearch (cr : CompiledRegex) (s : String) : Option (Nat × Nat × Caps) :=
  let cs := s.toList
  searchLoop cr.ic cr.ast cs (cs.length + 1) 0

/-- Truthiness of `pattern.search(value)` (a match object is truthy even
for an empty-width match). -/
def reSearchBool (cr : CompiledRegex) (s : String) : Bool :=
  (reSearch cr s).isSome

/-- `pattern.match(value)` — anchored at position 0 only, first result
in backtracking priority order. -/
def reMatch0 (cr : CompiledRegex) (s : String) : Option (Nat × Caps) :=
  (runF cr.ic s.toList (fuelFor cr.ast s.toList.length) cr.ast 0 []).head?

/-- Group lookup: `match.groups()[n-1]` as an `Option String`
(`none` models Python's `None` for a group that did not participate). -/
def capStr (cp : Caps) (n : Nat) : Option String :=
  (cp.find? fun e => e.1 == n).map fun e => String.mk e.2

/-! ### The regex parser (the parsing half of `re.compile`)

A recursive-descent parser for the same `re` fragment.  A string the
parser rejects models a pattern on which `re.compile` raises
(e.g. the unbalanced `"("` of the claims).  Capture groups are numbered
by opening parenthesis, starting at 1, as in Python. -/

/-- Parse the items of a character class after the optional `^`,
accumulating ranges, until the closing `]`. -/
def pClsItems (neg : Bool) : List Char → List (Char × Char) → Option (Regex × List Char)
  | ']' :: rest, acc => some (.cls neg acc.reverse, rest)
  | '\\' :: c :: rest, acc => pClsItems neg rest ((c, c) :: acc)
  | a :: '-' :: ']' :: rest, acc =>
    -- a trailing hyphen is a literal member of the class
    some (.cls neg (((('-' : Char), ('-' : Char)) :: (a, a) :: acc).reverse), rest)
  | a :: '-' :: b :: rest, acc => pClsItems neg rest ((a, b) :: acc)
  | a :: rest, acc => pClsItems neg rest ((a, a) :: acc)
  | [], _ => none

/-- Parse a character class body (input starts right after `[`). -/
def pCls : List Char → Option (Regex × List Char)
  | '^' :: rest => pClsItems true rest []
  | cs => pClsItems false cs []

/-- Which grammar production `pRun` is parsing. -/
inductive PMode where
  | alt
  | sq
  | atomq
  | atom

/-- The fueled recursive-descent parser.  State is the remaining input
and the next capture-group number; each recursive call spends one unit
of fuel (the top-level wrapper supplies ample fuel). -/
def pRun : Nat → PMode → List Char → Nat → Option (Regex × List Char × Nat)
  | 0, _, _, _ => none
  | n + 1, m, cs, g =>
    match m with
    | .alt => do
      let (r1, cs1, g1) ← pRun n .sq cs g
      match cs1 with
      | '|' :: rest => do
        let (r2, cs2, g2) ← pRun n .alt rest g1
        some (.alt r1 r2, cs2, g2)
      | _ => some (r1, cs1, g1)
    | .sq =>
      match cs with
      | [] => some (.eps, [], g)
      | ')' :: _ => some (.eps, cs, g)
      | '|' :: _ => some (.eps, cs, g)
      | _ => do
        let (r1, cs1, g1) ← pRun n .atomq cs g
        let (r2, cs2, g2) ← pRun n .sq cs1 g1
        some (.seq r1 r2, cs2, g2)
    | .atomq => do
      let (r, cs1, g1) ← pRun n .atom cs g
      match cs1 with
      | '*' :: '?' :: rest => some (.star false r, rest, g1)
      | '*' :: rest => some (.star true r, rest, g1)
      | '+' :: '?' :: rest => some (.seq r (.star false r), rest, g1)
      | '+' :: rest => some (.seq r (.star true r), rest, g1)
      | '?' :: '?' :: rest => some (.alt .eps r, rest, g1)
      | '?' :: rest => some (.alt r .eps, rest, g1)
      | _ => some (r, cs1, g1)
    | .atom =>
      match cs with
      | '(' :: rest => do
        let (r, cs1, g1) ← pRun n .alt rest (g + 1)
        match cs1 with
        | ')' :: cs2 => some (.group g r, cs2, g1)
        | _ => none
      | '[' :: rest =>
        match pCls rest with
        | some (r, cs1) => some (r, cs1, g)
        | none => none
      | '^' :: rest => some (.bol, rest, g)
      | '$' :: rest => some (.eol, rest, g)
      | '.' :: rest => some (.dot, rest, g)
      | '\\' :: c :: rest => some (.chr c, rest, g)
      | '\\' :: [] => none
      | c :: rest =>
        if c == ')' || c == '|' || c == '*' || c == '+' || c == '?' then none
        else some (.chr c, rest, g)
      | [] => none

/-- Parse a whole pattern; `none` models a `re.compile` error.  Returns
the syntax and the number of capture groups. -/
def parseRegex (cs : List Char) : Option (Regex × Nat) :=
  match pRun (6 * cs.length + 20) .alt cs 1 with
  | some (r, [], gfin) => some (r, gfin - 1)
  | _ => none

/-! ### String helpers (Python `str` operations used by the source) -/

/-- `regex_string.replace('[^]', '.')` specialised to the constant
pattern: rewrite every occurrence of the three characters `[^]` to `.`,
scanning left to right without overlap. -/
def replaceSub : List Char → List Char
  | '[' :: '^' :: ']' :: rest => '.' :: replaceSub rest
  | c :: rest => c :: replaceSub rest
  | [] => []

/-- Fueled worker for Python `str.split(sep)` with a non-empty
separator (fuel is the input length plus one, always sufficient). -/
def splitOnListF (sep : List Char) : Nat → List Char → List Char → List (List Char)
  | _, [], acc => [acc.reverse]
  | 0, cs, acc => [acc.reverse ++ cs]
  | n + 1, c :: rest, acc =>
    if sep.isPrefixOf (c :: rest) then
      acc.reverse :: splitOnListF sep n ((c :: rest).drop sep.length) []
    else
      splitOnListF sep n rest (c :: acc)

/-- Python `s.split(sep)` for a non-empty separator. -/
def splitOnStr (sep s : String) : List String :=
  (splitOnListF sep.toList (s.toList.length + 1) s.toList []).map String.mk

/-- Python `':'.join(parts)`. -/
def joinColon : List String → String
  | [] => ""
  | [x] => x
  | x :: rest => x ++ ":" ++ joinColon rest

/-- Python `s.lower()`. -/
def lowerStr (s : String) : String :=
  String.mk (s.toList.map Char.toLower)

/-! ### `compile_regex` and per-pattern attribute parsing -/

/-- The regex `re.compile('^$', flags)` substituted on a compile error:
matches the empty string anchored between start and end. -/
def fallbackAst : Regex := Regex.seq .bol .eol

/-- `compile_regex(regex_string, ignorecase=True)` from the source:
rewrite `[^]` to `.`, compile with IGNORECASE (when requested) and
DOTALL; on a compile error fall back to the pattern `^$` with the same
flags (the Python code also prints a diagnostic, a side effect with no
bearing on the result). -/
def compile_regex (regex_string : String) (ignorecase : Bool := true) : CompiledRegex :=
  match parseRegex (replaceSub regex_string.toList) with
  | some (r, ng) => { ast := r, ng := ng, ic := ignorecase }
  | none => { ast := fallbackAst, ng := 0, ic := ignorecase }

/-- A value stored in a pattern's attribute dict: the Python code stores
the raw string under `'string'`, the compiled regex under `'regex'`,
and attribute values (such as `version`) as strings. -/
inductive AttrVal where
  | str (s : String)
  | rx (r : CompiledRegex)
deriving DecidableEq

/-- The `attrs` dict built for one pattern string: an insertion-ordered
dictionary. -/
abbrev Attrs := List (String × AttrVal)

/-- Dict lookup (`d[k]` / `k in d`). -/
def dictGet (d : Attrs) (k : String) : Option AttrVal :=
  (d.find? fun kv => kv.1 == k).map fun kv => kv.2

/-- Dict assignment `d[k] = v`: overwrite in place, else append. -/
def dictSet : Attrs → String → AttrVal → Attrs
  | [], k, v => [(k, v)]
  | (k0, v0) :: rest, k, v =>
    if k0 == k then (k0, v) :: rest else (k0, v0) :: dictSet rest k v

/-- One iteration of the segment loop in `parse_patterns`: segment 0
stores the raw string and the compiled regex; a later segment `key:value`
(value rejoined on `:`) stores an attribute, and a segment with no colon
is discarded. -/
def parseSeg (attrs : Attrs) (i : Nat) (attr : String) : Attrs :=
  if i == 0 then
    dictSet (dictSet attrs "string" (.str attr)) "regex" (.rx (compile_regex attr))
  else
    match splitOnStr ":" attr with
    | [] => attrs
    | [_] => attrs
    | a0 :: rest => dictSet attrs a0 (.str (joinColon rest))

/-- Compilation of one pattern string into its attribute dict: split on
the literal `\;`, then run the indexed segment loop. -/
def parse_pattern (pattern : String) : Attrs :=
  ((splitOnStr "\\;" pattern).enum).foldl (fun attrs iv => parseSeg attrs iv.1 iv.2) []

/-! ### `parse_patterns`: normalising a rule's pattern group -/

/-- A pattern-group value as it appears inside a keyed group in the rule
document: a single string or a list of strings. -/
inductive FlatVal where
  | str (s : String)
  | vals (l : List String)
deriving DecidableEq

/-- `as_list(value)` from the source, at the type used for keyed
sub-group values. -/
def as_list : FlatVal → List String
  | .str s => [s]
  | .vals l => l

/-- A rule's pattern specification for one signal kind, as found in the
rule document: a bare string, a bare list, or a keyed mapping. -/
inductive PatternsVal where
  | str (s : String)
  | pats (l : List String)
  | dict (d : List (String × FlatVal))
deriving DecidableEq

/-- Python truthiness of the `patterns` argument (`if not patterns`):
an empty string, list, or dict is falsy. -/
def pvIsFalsy : PatternsVal → Bool
  | .str s => s == ""
  | .pats l => l.isEmpty
  | .dict d => d.isEmpty

/-- The result of `parse_patterns`: either a bare list of compiled
patterns (the `main` degradation, also the `[]` returned for a falsy
argument) or a keyed mapping. -/
inductive ParsedPatterns where
  | flat (l : List Attrs)
  | keyed (d : List (String × List Attrs))
deriving DecidableEq

/-- `parse_patterns` from the source: wrap a flat string or list under
the implicit sub-key `main`, compile every pattern string of every
sub-key, and degrade to the bare `main` list whenever the key `main` is
present. -/
def parse_patterns (patterns : PatternsVal) : ParsedPatterns :=
  if pvIsFalsy patterns then .flat [] else
    let pdict : List (String × List String) :=
      match patterns with
      | .str s => [("main", [s])]
      | .pats l => [("main", l)]
      | .dict d => d.map fun kv => (kv.1, as_list kv.2)
    let parsed : List (String × List Attrs) :=
      pdict.map fun kv => (kv.1, kv.2.map parse_pattern)
    match parsed.find? fun kv => kv.1 == "main" with
    | some kv => .flat kv.2
    | none => .keyed parsed

/-! ### Rules, exceptions, and detection registration -/

/-- A rule (an entry of `apps` after `parse_app`): its name, its
normalised `implies` list, and its optional per-signal pattern
specifications. -/
structure App where
  name : String
  implies : List String := []
  url : Option PatternsVal := none
  html : Option PatternsVal := none
  script : Option PatternsVal := none
  cookies : Option PatternsVal := none
  headers : Option PatternsVal := none
  meta : Option PatternsVal := none
  js : Option PatternsVal := none
deriving DecidableEq

/-- The Python exceptions the analysis code can raise, plus a network
error raised by `requests.get` for a script body. -/
inductive PyExc where
  | typeError
  | attributeError
  | keyError
  | requestError (url : String)
deriving DecidableEq

/-- `pattern['regex']` used as a compiled regex.  Every dict built by
`parse_pattern` stores a compiled regex under `'regex'` first; the error
branches model the `KeyError` / `AttributeError` Python would raise on a
dict that lacks one (possible only when a pattern declares a literal
attribute named `regex`, which overwrites the compiled one). -/
def patRegex (p : Attrs) : Except PyExc CompiledRegex :=
  match dictGet p "regex" with
  | some (.rx r) => .ok r
  | some (.str _) => .error .attributeError
  | none => .error .keyError

/-- The display-name computation at the top of `add_detected`: start
from the rule's name; when the pattern has a `version` attribute, re-run
the pattern's matcher anchored at the start of the value
(`pattern['regex'].match(value)`), and if the pattern has at least one
capture group and the first group participated, append the captured
text in parentheses. -/
def display_name (app : App) (pattern : Attrs) (value : String) : Except PyExc String := do
  let app_name := app.name
  if (dictGet pattern "version").isSome then
    let r ← patRegex pattern
    match reMatch0 r value with
    | some m =>
      if r.ng > 0 then
        match capStr m.2 1 with
        | some v => pure (app_name ++ " (" ++ v ++ ")")
        | none => pure app_name
      else pure app_name
    | none => pure app_name
  else
    pure app_name

/-- Append a name to the detected list unless already present
(`if not x in self.__detected_apps: self.__detected_apps.append(x)`). -/
def addName (det : List String) (n : String) : List String :=
  if n ∈ det then det else det ++ [n]

/-- The registration tail of `add_detected`: append the display name if
absent, then append each implied name if absent. -/
def register_names (det : List String) (n : String) (implies : List String) : List String :=
  implies.foldl addName (addName det n)

/-- `add_detected(app, pattern, type, value)`: compute the display name
and register it together with the rule's one-level implications.  The
`type` and `key` parameters of the Python method are unused by it and
omitted. -/
def add_detected (det : List String) (app : App) (pattern : Attrs) (value : String) :
    Except PyExc (List String) := do
  let n ← display_name app pattern value
  pure (register_names det n app.implies)

/-- `pattern['regex'].search(value)` as used by every analyzer. -/
def pattern_search (p : Attrs) (value : String) : Except PyExc Bool := do
  let r ← patRegex p
  pure (reSearchBool r value)

/-! ### The per-signal analyzers -/

/-- The shared inner loop of `analyze_url` / `analyze_html` /
`analyze_scripts`: test each compiled pattern of a bare list against
one candidate value, registering on every match. -/
def scanFlat (app : App) (value : String) (det : List String) (pats : List Attrs) :
    Except PyExc (List String) :=
  pats.foldlM (fun det p => do
    let b ← pattern_search p value
    if b then add_detected det app p value else pure det) det

/-- `analyze_url(url)`: every rule with a `url` key, bare pattern list
against the one URL candidate.  A keyed group here would make Python
iterate dict keys (strings) and index them with `['regex']`, raising a
`TypeError` on the first key; keyed groups are never empty. -/
def analyze_url (apps : List App) (url : String) (det : List String) :
    Except PyExc (List String) :=
  apps.foldlM (fun det app =>
    match app.url with
    | none => pure det
    | some pv =>
      match parse_patterns pv with
      | .flat pats => scanFlat app url det pats
      | .keyed _ => .error .typeError) det

/-- `analyze_html(html)`: same shape as `analyze_url` over the raw
document text. -/
def analyze_html (apps : List App) (html_doc : String) (det : List String) :
    Except PyExc (List String) :=
  apps.foldlM (fun det app =>
    match app.html with
    | none => pure det
    | some pv =>
      match parse_patterns pv with
      | .flat pats => scanFlat app html_doc det pats
      | .keyed _ => .error .typeError) det

/-- `analyze_scripts(scripts)`: bare pattern list against each script
URL.  With a keyed group the `TypeError` fires only once the script
loop produces a first candidate. -/
def analyze_scripts (apps : List App) (scripts : List String) (det : List String) :
    Except PyExc (List String) :=
  apps.foldlM (fun det app =>
    match app.script with
    | none => pure det
    | some pv =>
      match parse_patterns pv with
      | .flat pats => scripts.foldlM (fun det uri => scanFlat app uri det pats) det
      | .keyed _ => if scripts.isEmpty then pure det else .error .typeError) det

/-- `analyze_cookies(cookies)`: keyed pattern group; only cookie names
present in the response's cookie jar are tested, against that cookie's
value.  A flat group (even the empty one a falsy value normalises to)
makes Python call `.items()` on a list, raising `AttributeError`. -/
def analyze_cookies (apps : List App) (cookies : List (String × String)) (det : List String) :
    Except PyExc (List String) :=
  apps.foldlM (fun det app =>
    match app.cookies with
    | none => pure det
    | some pv =>
      match parse_patterns pv with
      | .flat _ => .error .attributeError
      | .keyed kd =>
        kd.foldlM (fun det kp =>
          match (cookies.find? fun kv => kv.1 == kp.1).map (fun kv => kv.2) with
          | none => pure det
          | some cval =>
            kp.2.foldlM (fun det p => do
              let b ← pattern_search p cval
              if b then add_detected det app p cval else pure det) det) det) det

/-- `analyze_headers(headers)`: like cookies, but `requests` exposes the
header map as a case-insensitive dict, so membership and lookup ignore
case. -/
def analyze_headers (apps : List App) (headers : List (String × String)) (det : List String) :
    Except PyExc (List String) :=
  apps.foldlM (fun det app =>
    match app.headers with
    | none => pure det
    | some pv =>
      match parse_patterns pv with
      | .flat _ => .error .attributeError
      | .keyed kd =>
        kd.foldlM (fun det kp =>
          match (headers.find? fun kv => lowerStr kv.1 == lowerStr kp.1).map (fun kv => kv.2) with
          | none => pure det
          | some hval =>
            kp.2.foldlM (fun det p => do
              let b ← pattern_search p hval
              if b then add_detected det app p hval else pure det) det) det) det

/-- A `<meta>` element as the analyzer sees it: its `name`, `property`
and `content` attributes, each possibly absent (`attrs.get`). -/
structure MetaTag where
  name : Option String := none
  property : Option String := none
  content : Option String := none
deriving DecidableEq

/-- `analyze_meta(meta_tags)`: for each rule with a `meta` key and each
tag carrying a non-empty (lower-cased) `name` or `property`, sub-keys
equal to either select the patterns, which are searched against the
tag's `content`.  A flat group raises `AttributeError` at `.items()`
once such a tag is reached; a selected tag without `content` makes
`search(None)` raise `TypeError`. -/
def analyze_meta (apps : List App) (meta_tags : List MetaTag) (det : List String) :
    Except PyExc (List String) :=
  apps.foldlM (fun det app =>
    match app.meta with
    | none => pure det
    | some pv =>
      let pp := parse_patterns pv
      meta_tags.foldlM (fun det tag =>
        let meta_name := lowerStr (tag.name.getD "")
        let meta_property := lowerStr (tag.property.getD "")
        if meta_name != "" || meta_property != "" then
          match pp with
          | .flat _ => .error .attributeError
          | .keyed kd =>
            kd.foldlM (fun det kp =>
              if kp.1 == meta_name || kp.1 == meta_property then
                kp.2.foldlM (fun det p => do
                  let r ← patRegex p
                  match tag.content with
                  | none => .error .typeError
                  | some c =>
                    if reSearchBool r c then add_detected det app p c else pure det) det
              else pure det) det
        else pure det) det) det

/-- The guard regex built inside `analyze_js` for one sub-key:
`compile_regex(r'(window|document)\.' + pattern_name + r' *?=',
ignorecase=False)`. -/
def jsGuard (pattern_name : String) : CompiledRegex :=
  compile_regex ("(window|document)\\." ++ pattern_name ++ " *?=") false

/-- `analyze_js(scripts)`: fetch each script body in turn — the fetch is
not guarded, so a network error propagates — then for each rule with a
`js` key and each sub-key whose guard matches the body, search the
sub-key's patterns against the whole body.  A flat group raises
`AttributeError` at `.keys()`. -/
def analyze_js (fetch : String → Except PyExc String) (apps : List App)
    (scripts : List String) (det : List String) : Except PyExc (List String) :=
  scripts.foldlM (fun det script => do
    let js ← fetch script
    apps.foldlM (fun det app =>
      match app.js with
      | none => pure det
      | some pv =>
        match parse_patterns pv with
        | .flat _ => .error .attributeError
        | .keyed kd =>
          kd.foldlM (fun det kp =>
            if reSearchBool (jsGuard kp.1) js then
              kp.2.foldlM (fun det p => do
                let b ← pattern_search p js
                if b then add_detected det app p js else pure det) det
            else pure det) det) det) det

/-! ### The detection pass -/

/-- The parsed document as the pipeline consumes it (the BeautifulSoup
capability): whether `html.find('html')` is truthy, the `src` of every
script element that has one (`get_scripts`), and the meta elements
(`get_meta_tags`). -/
structure Doc where
  isHtml : Bool
  scripts : List String
  metas : List MetaTag

/-- The fetched response handed to `analyze`. -/
structure PyResponse where
  url : String
  requestUrl : String
  text : String
  headers : List (String × String) := []
  cookies : List (String × String) := []

/-- `get_absolute_url(base_url, urls)` with the standard URL resolver
supplied as a capability. -/
def get_absolute_url (urljoin : String → String → String) (base_url : String)
    (urls : List String) : List String :=
  urls.map (urljoin base_url)

/-- `analyze(response)`: reset the result, then run the markup analyses
(when the document is HTML) followed by the URL, header and cookie
analyses.  The HTML parser and URL resolver are external capabilities
passed as functions; an exception anywhere aborts the pass. -/
def analyze (parse : String → Doc) (urljoin : String → String → String)
    (fetch : String → Except PyExc String) (apps : List App)
    (response : PyResponse) : Except PyExc (List String) := do
  let url := response.url
  let html_doc := response.text
  let html := parse html_doc
  let det : List String := []
  let det ←
    if html.isHtml then do
      let scripts := html.scripts
      let meta_tags := html.metas
      let det ← analyze_html apps html_doc det
      let det ← analyze_scripts apps scripts det
      let det ← analyze_js fetch apps (get_absolute_url urljoin response.requestUrl scripts) det
      analyze_meta apps meta_tags det
    else pure det
  let det ← analyze_url apps url det
  let det ← analyze_headers apps response.headers det
  analyze_cookies apps response.cookies det

/-! ### Concrete fixtures used by the claim theorems and witnesses -/

/-- A rule testing only the `js` signal. -/
def appJsOnly : App := { name := "J", js := some (.dict [("foo", .str "bar")]) }

/-- A parsed HTML document with two discovered script sources. -/
def docTwoScripts : Doc := { isHtml := true, scripts := ["a.js", "b.js"], metas := [] }

/-- A trivial URL resolver capability. -/
def urljoinId : String → String → String := fun _ u => u

/-- A fetch capability whose fetch of `a.js` raises a network error and
whose other fetches succeed. -/
def fetchErrA : String → Except PyExc String := fun u =>
  if u == "a.js" then .error (.requestError "a.js") else .ok "window.foo = bar"

/-- A minimal response for the pass-level fixtures. -/
def respHtml : PyResponse := { url := "http://x/", requestUrl := "http://x/", text := "<html>" }

/-- The WordPress rule of the version-extraction example. -/
def appWordPress : App := { name := "WordPress" }

/-- The compiled pattern `WordPress ([0-9.]+)\;version:\1`. -/
def wpPat : Attrs := parse_pattern "WordPress ([0-9.]+)\\;version:\\1"

/-- The jQuery rule of the JS-global-guard example. -/
def appJQuery : App :=
  { name := "jQuery", js := some (.dict [("jQuery.fn.jquery", .str "(.*)\\;version:\\1")]) }

/-- A fetch capability returning a body that mentions
`jQuery.fn.jquery` only as plain text. -/
def fetchJqText : String → Except PyExc String := fun _ => .ok "jQuery.fn.jquery"

/-- A rule keyed on the meta sub-key `generator`. -/
def appGenerator : App := { name := "M", meta := some (.dict [("generator", .str "WordPress")]) }

/-- A meta tag with a matching `name` but no `content` attribute. -/
def tagNoContent : MetaTag := { name := some "Generator" }

/-- A parsed document exposing only that meta tag. -/
def docOneMeta : Doc := { isHtml := true, scripts := [], metas := [tagNoContent] }

/-- A fetch capability that always succeeds (never consulted when no
scripts are discovered). -/
def fetchEmpty : String → Except PyExc String := fun _ => .ok ""

/-- A rule with two `url` patterns that both match the candidate
`a1b2`, with different version captures. -/
def appFoo : App :=
  { name := "Foo", url := some (.pats ["a(1)\\;version:\\1", "(b2)\\;version:\\1"]) }

/-- Rule `A`: matches `aaa` in a URL and implies `B`. -/
def appA : App := { name := "A", implies := ["B"], url := some (.pats ["aaa"]) }

/-- Rule `B`: matches `zzz` in a URL and implies `C`. -/
def appB : App := { name := "B", implies := ["C"], url := some (.pats ["zzz"]) }

/-- A parsed document that is not HTML (the markup analyses are
skipped). -/
def docNotHtml : Doc := { isHtml := false, scripts := [], metas := [] }

/-- A response whose final URL contains `aaa` but not `zzz`. -/
def respUrlAaa : PyResponse := { url := "xaaax", requestUrl := "xaaax", text := "plain" }

/-! ### Helper lemmas -/

theorem ebind_ok {α β : Type} (a : α) (f : α → Except PyExc β) :
    (Except.ok a >>= f) = f a := rfl

theorem ebind_err {α β : Type} (e : PyExc) (f : α → Except PyExc β) :
    ((Except.error e : Except PyExc α) >>= f) = Except.error e := rfl

theorem foldlM_exc_nil {α σ : Type} (f : σ → α → Except PyExc σ) (b : σ) :
    List.foldlM f b [] = Except.ok b := rfl

theorem foldlM_exc_cons {α σ : Type} (f : σ → α → Except PyExc σ) (b : σ) (a : α) (l : List α) :
    List.foldlM f b (a :: l) = f b a >>= fun c => List.foldlM f c l := rfl

theorem mem_addName_of_mem {det : List String} {x : String} (n : String) (h : x ∈ det) :
    x ∈ addName det n := by
  unfold addName
  by_cases hn : n ∈ det
  · simpa [hn]
  · simp [hn]
    exact Or.inl h

theorem self_mem_addName (det : List String) (n : String) : n ∈ addName det n := by
  unfold addName
  by_cases hn : n ∈ det
  · simp [hn]
  · simp [hn]

theorem mem_addName_cases {det : List String} {x n : String} (h : x ∈ addName det n) :
    x ∈ det ∨ x = n := by
  unfold addName at h
  by_cases hn : n ∈ det
  · simp [hn] at h
    exact Or.inl h
  · simp [hn] at h
    exact h

theorem addName_nodup {det : List String} (n : String) (h : det.Nodup) :
    (addName det n).Nodup := by
  unfold addName
  by_cases hn : n ∈ det
  · simpa [hn]
  · simp [hn]
    exact List.Nodup.append h (List.nodup_singleton n)
      (by intro a ha hb; rw [List.mem_singleton] at hb; subst hb; exact hn ha)

theorem addName_id {det : List String} (n : String) (h : n ∈ det) : addName det n = det := by
  unfold addName
  simp [h]

theorem mem_foldl_addName_of_mem (l : List String) {det : List String} {x : String}
    (h : x ∈ det) : x ∈ l.foldl addName det := by
  induction l generalizing det with
  | nil => simpa
  | cons a t ih => exact ih (mem_addName_of_mem a h)

theorem mem_foldl_addName_cases (l : List String) {det : List String} {x : String}
    (h : x ∈ l.foldl addName det) : x ∈ det ∨ x ∈ l := by
  induction l generalizing det with
  | nil => exact Or.inl (by simpa using h)
  | cons a t ih =>
    rcases ih (by simpa using h) with h1 | h1
    · rcases mem_addName_cases h1 with h2 | h2
      · exact Or.inl h2
      · exact Or.inr (by simp [h2])
    · exact Or.inr (List.mem_cons_of_mem a h1)

theorem foldl_addName_nodup (l : List String) {det : List String} (h : det.Nodup) :
    (l.foldl addName det).Nodup := by
  induction l generalizing det with
  | nil => simpa
  | cons a t ih => exact ih (addName_nodup a h)

theorem foldl_addName_id (l : List String) {det : List String} (h : ∀ i ∈ l, i ∈ det) :
    l.foldl addName det = det := by
  induction l with
  | nil => rfl
  | cons a t ih =>
    have ha : a ∈ det := h a (by simp)
    simp only [List.foldl_cons, addName_id a ha]
    exact ih fun i hi => h i (List.mem_cons_of_mem a hi)

theorem mem_register_names_of_mem {det : List String} {x : String} (n : String)
    (implies : List String) (h : x ∈ det) : x ∈ register_names det n implies :=
  mem_foldl_addName_of_mem implies (mem_addName_of_mem n h)

theorem self_mem_register_names (det : List String) (n : String) (implies : List String) :
    n ∈ register_names det n implies :=
  mem_foldl_addName_of_mem implies (self_mem_addName det n)

theorem mem_register_names_cases {det : List String} {x n : String} {implies : List String}
    (h : x ∈ register_names det n implies) : x ∈ det ∨ x = n ∨ x ∈ implies := by
  rcases mem_foldl_addName_cases implies h with h1 | h1
  · rcases mem_addName_cases h1 with h2 | h2
    · exact Or.inl h2
    · exact Or.inr (Or.inl h2)
  · exact Or.inr (Or.inr h1)

theorem register_names_nodup {det : List String} (n : String) (implies : List String)
    (h : det.Nodup) : (register_names det n implies).Nodup :=
  foldl_addName_nodup implies (addName_nodup n h)

theorem register_names_id {det : List String} {n : String} {implies : List String}
    (hn : n ∈ det) (hi : ∀ i ∈ implies, i ∈ det) : register_names det n implies = det := by
  unfold register_names
  rw [addName_id n hn]
  exact foldl_addName_id implies hi

theorem parse_patterns_pair (s1 s2 : String) :
    parse_patterns (.pats [s1, s2]) = .flat [parse_pattern s1, parse_pattern s2] := rfl

theorem parse_patterns_single_key (k : String) (fv : FlatVal) (hk : k ≠ "main") :
    parse_patterns (.dict [(k, fv)]) = .keyed [(k, (as_list fv).map parse_pattern)] := by
  have hb : (k == "main") = false := beq_eq_false_iff_ne.mpr hk
  unfold parse_patterns
  simp [pvIsFalsy, List.find?, hb]

theorem ebind_pure {α : Type} (x : Except PyExc α) : (x >>= fun a => Except.ok a) = x := by
  cases x <;> rfl

theorem epure_eq_ok {α : Type} (a : α) : (pure a : Except PyExc α) = Except.ok a := rfl

theorem add_detected_eq {det : List String} {app : App} {p : Attrs} {v : String} {n : String}
    (hd : display_name app p v = .ok n) :
    add_detected det app p v = .ok (register_names det n app.implies) := by
  unfold add_detected
  rw [hd, ebind_ok]
  rfl

theorem string_toList_inj {s t : String} : s.toList = t.toList ↔ s = t :=
  ⟨fun h => String.ext h, fun h => by rw [h]⟩

theorem runF_fallback (ic : Bool) (cs : List Char) (n p : Nat) (cp : Caps) :
    runF ic cs (n + 2) fallbackAst p cp =
      if p = 0 then (if cs.isEmpty || cs == ['\n'] then [(p, cp)] else []) else [] := by
  by_cases hp : p = 0
  · subst hp
    by_cases hc : (cs.isEmpty || cs == ['\n']) = true
    · simp [fallbackAst, runF, hc]
      intro hne
      have hc2 : cs = [] ∨ cs = ['\n'] := by simpa using hc
      rcases hc2 with h | h
      · exact absurd h hne
      · exact h
    · simp [fallbackAst, runF, hc]
      constructor
      · intro h
        exact hc (by simp [h])
      · intro h
        exact hc (by simp [h])
  · have hb : (p == 0) = false := by
      simpa using hp
    simp [fallbackAst, runF, hb, hp]

theorem searchLoop_fallback_pos (ic : Bool) (cs : List Char) (n : Nat) :
    ∀ p, p ≠ 0 → searchLoop ic fallbackAst cs n p = none := by
  induction n with
  | zero => intro p _; rfl
  | succ n ih =>
    intro p hp
    have hfuel : fuelFor fallbackAst cs.length = 4 * cs.length + 6 + 2 := by
      simp [fuelFor, fallbackAst, sizeR]
      omega
    simp only [searchLoop, hfuel, runF_fallback]
    simp only [hp, if_false]
    exact ih (p + 1) (Nat.succ_ne_zero p)

/-! ### The claims -/

/-- C7: implication expansion is exactly one level deep.  Part 1: every
name a registration adds comes from the prior result, the registering
rule's display name, or that rule's own `impliedNames` — the implied
rules' implications are never consulted.  Parts 2 and 3: with rule `A`
implying `B` and rule `B` implying `C`, a full detection pass in which
only `A`'s patterns match yields exactly `A` and `B`, never `C`. -/
theorem c7_implication_one_level :
    (∀ (det res : List String) (app : App) (p : Attrs) (v : String),
        add_detected det app p v = .ok res →
        ∀ x ∈ res, x ∈ det ∨ display_name app p v = .ok x ∨ x ∈ app.implies)
    ∧ analyze (fun _ => docNotHtml) urljoinId fetchEmpty [appA, appB] respUrlAaa
        = .ok ["A", "B"]
    ∧ "C" ∉ (["A", "B"] : List String) := by
  refine ⟨?_, rfl, by decide⟩
  intro det res app p v h x hx
  unfold add_detected at h
  cases hd : display_name app p v with
  | error e => rw [hd, ebind_err] at h; simp at h
  | ok n =>
    rw [hd, ebind_ok] at h
    have hres : register_names det n app.implies = res := by
      simpa [epure_eq_ok] using h
    rw [← hres] at hx
    rcases mem_register_names_cases hx with h1 | h1 | h1
    · exact Or.inl h1
    · exact Or.inr (Or.inl (by rw [h1]))
    · exact Or.inr (Or.inr h1)

/-- Witness for C7: the one-level closure property evaluated on the
concrete registration of rule `A` into an empty result. -/
theorem c7_implication_one_level_w :
    ∀ x ∈ (["A", "B"] : List String),
      x ∈ ([] : List String) ∨ display_name appA (parse_pattern "aaa") "xaaax" = .ok x
        ∨ x ∈ appA.implies :=
  c7_implication_one_level.1 [] ["A", "B"] appA (parse_pattern "aaa") "xaaax" rfl

/-- C8 (amended): the result list stays duplicate-free through every
registration, and a registration whose display name and implied names
are all already present leaves the result unchanged.  (Registering an
already-present display name alone may still append missing implied
names — see the counterexample.) -/
theorem c8_result_nodup_amended :
    (∀ (det res : List String) (app : App) (p : Attrs) (v : String),
        det.Nodup → add_detected det app p v = .ok res → res.Nodup)
    ∧ (∀ (det res : List String) (app : App) (p : Attrs) (v : String) (n : String),
        display_name app p v = .ok n → n ∈ det → (∀ i ∈ app.implies, i ∈ det) →
        add_detected det app p v = .ok res → res = det) := by
  constructor
  · intro det res app p v hnd h
    unfold add_detected at h
    cases hd : display_name app p v with
    | error e => rw [hd, ebind_err] at h; simp at h
    | ok n =>
      rw [hd, ebind_ok] at h
      have hres : register_names det n app.implies = res := by
        simpa [epure_eq_ok] using h
      rw [← hres]
      exact register_names_nodup n app.implies hnd
  · intro det res app p v n hd hn hi h
    rw [add_detected_eq hd] at h
    have hres : register_names det n app.implies = res := by simpa using h
    rw [← hres]
    exact register_names_id hn hi

/-- Witness for C8: duplicate-freedom after a concrete registration,
and the unchanged-result case at a concrete input. -/
theorem c8_result_nodup_amended_w :
    (["M", "A", "B"] : List String).Nodup ∧ (["A", "B"] : List String) = ["A", "B"] := by
  constructor
  · exact c8_result_nodup_amended.1 ["M"] ["M", "A", "B"] appA (parse_pattern "aaa") "v"
      (by decide) rfl
  · exact c8_result_nodup_amended.2 ["A", "B"] ["A", "B"] appA (parse_pattern "aaa") "v" "A"
      rfl (by decide) (by decide) rfl

/-- C8 counterexample: registering rule `A` (which implies `B`) when
its display name `A` is already present still appends the missing
implied name `B`, so the result does not stay unchanged. -/
theorem c8_register_present_changes_result :
    add_detected ["X", "A"] appA (parse_pattern "aaa") "v" = .ok ["X", "A", "B"]
    ∧ "A" ∈ (["X", "A"] : List String)
    ∧ (["X", "A", "B"] : List String) ≠ ["X", "A"] :=
  ⟨rfl, by decide, by decide⟩

/-- C2: when the matched pattern carries a `version` attribute, the same
compiled matcher is re-run (anchored) against the candidate value; with
at least one capture group whose first group captured non-empty text
`g`, the registered display name is the rule's name followed by
` (g)`. -/
theorem c2_version_extraction (det : List String) (app : App) (p : Attrs) (v : String)
    (r : CompiledRegex) (m : Nat × Caps) (g : String)
    (hv : (dictGet p "version").isSome = true)
    (hr : patRegex p = .ok r)
    (hm : reMatch0 r v = some m)
    (hng : r.ng > 0)
    (hg : capStr m.2 1 = some g)
    (_hne : g ≠ "") :
    display_name app p v = .ok (app.name ++ " (" ++ g ++ ")")
    ∧ ∃ res, add_detected det app p v = .ok res ∧ (app.name ++ " (" ++ g ++ ")") ∈ res := by
  have hd : display_name app p v = .ok (app.name ++ " (" ++ g ++ ")") := by
    unfold display_name
    rw [hv]
    simp only [if_true]
    rw [hr, ebind_ok, hm]
    simp only []
    rw [if_pos hng, hg]
    rfl
  refine ⟨hd, register_names det (app.name ++ " (" ++ g ++ ")") app.implies, ?_, ?_⟩
  · exact add_detected_eq hd
  · exact self_mem_register_names _ _ _

/-- Witness for C2: the spec's example — pattern
`WordPress ([0-9.]+)\;version:\1` against candidate `WordPress 5.9`
yields display name `WordPress (5.9)`. -/
theorem c2_version_extraction_w :
    display_name appWordPress wpPat "WordPress 5.9"
        = .ok (appWordPress.name ++ " (" ++ "5.9" ++ ")")
    ∧ ∃ res, add_detected [] appWordPress wpPat "WordPress 5.9" = .ok res
        ∧ (appWordPress.name ++ " (" ++ "5.9" ++ ")") ∈ res :=
  c2_version_extraction [] appWordPress wpPat "WordPress 5.9"
    (compile_regex "WordPress ([0-9.]+)") (13, [(1, ['5', '.', '9'])]) "5.9"
    rfl rfl rfl (by decide) rfl (by decide)

/-- C6 counterexample: rule `Foo` has two `url` patterns and both match
the single candidate `a1b2`; both registrations happen (there is no
break after the first match), producing the two entries `Foo (1)` and
`Foo` for one `(rule, candidate)` pair. -/
theorem c6_two_registrations_one_candidate :
    analyze_url [appFoo] "a1b2" [] = .ok ["Foo (1)", "Foo"]
    ∧ (["Foo (1)", "Foo"] : List String).length = 2 :=
  ⟨rfl, rfl⟩

/-- C6 (amended): registration happens on every compiled pattern whose
matcher succeeds, not only the first — with two matching patterns whose
display names are `d1` and `d2`, both display names end up in the
result. -/
theorem c6_registration_per_matching_pattern (app : App) (s1 s2 url : String)
    (det res : List String) (d1 d2 : String)
    (happ : app.url = some (.pats [s1, s2]))
    (h1 : pattern_search (parse_pattern s1) url = .ok true)
    (h2 : pattern_search (parse_pattern s2) url = .ok true)
    (hd1 : display_name app (parse_pattern s1) url = .ok d1)
    (hd2 : display_name app (parse_pattern s2) url = .ok d2)
    (hres : analyze_url [app] url det = .ok res) :
    d1 ∈ res ∧ d2 ∈ res := by
  have key : analyze_url [app] url det
      = .ok (register_names (register_names det d1 app.implies) d2 app.implies) := by
    unfold analyze_url
    rw [foldlM_exc_cons]
    simp only [happ, parse_patterns_pair]
    unfold scanFlat
    rw [foldlM_exc_cons]
    simp only [h1, ebind_ok, if_true]
    rw [add_detected_eq hd1, ebind_ok, foldlM_exc_cons]
    simp only [h2, ebind_ok, if_true]
    rw [add_detected_eq hd2, ebind_ok, foldlM_exc_nil, ebind_ok, foldlM_exc_nil]
  rw [key] at hres
  have hr2 : register_names (register_names det d1 app.implies) d2 app.implies = res := by
    simpa using hres
  rw [← hr2]
  constructor
  · exact mem_register_names_of_mem _ _ (self_mem_register_names _ _ _)
  · exact self_mem_register_names _ _ _

/-- Witness for C6's amended statement at the concrete `Foo` rule. -/
theorem c6_registration_per_matching_pattern_w :
    "Foo (1)" ∈ (["Foo (1)", "Foo"] : List String)
    ∧ "Foo" ∈ (["Foo (1)", "Foo"] : List String) :=
  c6_registration_per_matching_pattern appFoo "a(1)\\;version:\\1" "(b2)\\;version:\\1"
    "a1b2" [] ["Foo (1)", "Foo"] "Foo (1)" "Foo" rfl rfl rfl rfl rfl rfl

/-- C9 counterexample: at the empty pattern string, normalizing the
bare string yields the empty group (the falsy early return) while
normalizing the singleton list yields a one-pattern group. -/
theorem c9_empty_string_asymmetry :
    parse_patterns (.str "") = .flat []
    ∧ parse_patterns (.pats [""]) = .flat [parse_pattern ""]
    ∧ parse_patterns (.str "") ≠ parse_patterns (.pats [""]) :=
  ⟨rfl, rfl, by decide⟩

/-- C9 (amended): for every non-empty pattern string the bare string
and the singleton list normalize to identical compiled groups, and a
group whose only sub-key is `main` degrades to the bare compiled list
(at the empty string the two flat shapes differ — see the
counterexample). -/
theorem c9_flat_normalization :
    (∀ s : String, s ≠ "" → parse_patterns (.str s) = parse_patterns (.pats [s]))
    ∧ ∀ fv : FlatVal, parse_patterns (.dict [("main", fv)])
        = .flat ((as_list fv).map parse_pattern) := by
  constructor
  · intro s hs
    have hb : (s == "") = false := beq_eq_false_iff_ne.mpr hs
    unfold parse_patterns
    simp [pvIsFalsy, hb]
  · intro fv
    rfl

/-- Witness for C9's amended statement: the spec's example pattern and
a one-key `main` group. -/
theorem c9_flat_normalization_w :
    parse_patterns (.str "Foo\\;version:\\1") = parse_patterns (.pats ["Foo\\;version:\\1"])
    ∧ parse_patterns (.dict [("main", .str "x")]) = .flat [parse_pattern "x"] :=
  ⟨c9_flat_normalization.1 "Foo\\;version:\\1" (by decide),
   c9_flat_normalization.2 (.str "x")⟩

/-- C10: `[^]` is rewritten to the any-character token before
compilation (the compiled syntax equals that of `a.b`), and the
compiled pattern `a[^]b` matches `a`, newline, `b`. -/
theorem c10_empty_negated_class_rewrite :
    (compile_regex "a[^]b").ast = (compile_regex "a.b").ast
    ∧ reSearchBool (compile_regex "a[^]b") "a\nb" = true :=
  ⟨rfl, rfl⟩

/-- C3 counterexample: the fallback matcher compiled for the malformed
pattern `(` does succeed on the non-empty candidate consisting of one
newline (Python's `$` matches just before a trailing newline), so it is
not true that it never matches a non-empty candidate. -/
theorem c3_fallback_matches_newline_candidate :
    ("\n" : String) ≠ "" ∧ reSearchBool (compile_regex "(") "\n" = true :=
  ⟨by decide, rfl⟩

/-- C1 counterexample: a pass over a document with two scripts, where
the fetch of the first raises: the error propagates out of the whole
pass (the second script and the meta/url/headers/cookies analyses never
run), contradicting the claim that no exception escapes the pass. -/
theorem c1_fetch_error_aborts_whole_pass :
    analyze (fun _ => docTwoScripts) urljoinId fetchErrA [appJsOnly] respHtml
      = .error (.requestError "a.js") := rfl

/-- C1 (amended): the script-body fetch inside `analyze_js` is not
guarded, so a fetch error on any script aborts the remaining `js`
analysis and propagates to the caller. -/
theorem c1_fetch_error_propagates (fetch : String → Except PyExc String) (apps : List App)
    (s : String) (rest : List String) (det : List String) (e : PyExc)
    (h : fetch s = .error e) :
    analyze_js fetch apps (s :: rest) det = .error e := by
  unfold analyze_js
  rw [foldlM_exc_cons]
  simp only [h, ebind_err]

/-- Witness for C1's amended statement at the two-script fixture. -/
theorem c1_fetch_error_propagates_w :
    fetchErrA "a.js" = .error (.requestError "a.js")
    ∧ analyze_js fetchErrA [appJsOnly] ["a.js", "b.js"] [] = .error (.requestError "a.js") :=
  ⟨rfl,
   c1_fetch_error_propagates fetchErrA [appJsOnly] "a.js" ["b.js"] [] (.requestError "a.js") rfl⟩

/-- C4: a `js` sub-key's patterns are evaluated against a fetched body
only if the guard regex built from `(window|document)\.` and the
sub-key succeeds on the body; when the guard fails, the rule registers
nothing, whatever its patterns are. -/
theorem c4_js_guard_gates_patterns (rname k : String) (imps : List String) (fv : FlatVal)
    (u body : String) (det : List String) (fetch : String → Except PyExc String)
    (hk : k ≠ "main")
    (hf : fetch u = .ok body)
    (hg : reSearchBool (jsGuard k) body = false) :
    analyze_js fetch [{ name := rname, implies := imps, js := some (.dict [(k, fv)]) }] [u] det
      = .ok det := by
  unfold analyze_js
  rw [foldlM_exc_cons]
  simp only [hf, ebind_ok, foldlM_exc_cons, foldlM_exc_nil,
    parse_patterns_single_key k fv hk, hg, Bool.false_eq_true, if_false, epure_eq_ok,
    ebind_ok]

/-- Witness for C4: the spec's negative example — a rule keyed on
`jQuery.fn.jquery` does not match a script body that contains that path
only as plain text, with no `window.`/`document.` assignment. -/
theorem c4_js_guard_gates_patterns_w :
    ("jQuery.fn.jquery" : String) ≠ "main"
    ∧ fetchJqText "u" = .ok "jQuery.fn.jquery"
    ∧ reSearchBool (jsGuard "jQuery.fn.jquery") "jQuery.fn.jquery" = false
    ∧ analyze_js fetchJqText [appJQuery] ["u"] [] = .ok [] :=
  ⟨by decide, rfl, rfl,
   c4_js_guard_gates_patterns "jQuery" "jQuery.fn.jquery" [] (.str "(.*)\\;version:\\1")
     "u" "jQuery.fn.jquery" [] fetchJqText (by decide) rfl rfl⟩

/-- C5 counterexample: a meta tag whose `name` matches a rule's sub-key
but which has no `content` attribute makes `search(None)` raise a
`TypeError` that aborts meta analysis and the whole pass. -/
theorem c5_missing_content_aborts_pass :
    analyze (fun _ => docOneMeta) urljoinId fetchEmpty [appGenerator] respHtml
      = .error .typeError := rfl

/-- C5 (amended): a meta element whose lower-cased `name` equals a
rule's `meta` sub-key but which lacks a `content` attribute raises a
`TypeError` out of `analyze_meta`, aborting the pass, instead of being
treated as an absent value. -/
theorem c5_missing_meta_content_raises (rname k : String) (imps : List String) (fv : FlatVal)
    (p0 : String) (ps : List String) (tagName : String) (det : List String) (r : CompiledRegex)
    (hk : k ≠ "main")
    (hkne : k ≠ "")
    (hfv : as_list fv = p0 :: ps)
    (hname : lowerStr tagName = k)
    (hr : patRegex (parse_pattern p0) = .ok r) :
    analyze_meta [{ name := rname, implies := imps, meta := some (.dict [(k, fv)]) }]
      [{ name := some tagName, property := none, content := none }] det
      = .error .typeError := by
  have hb0 : (k == "") = false := beq_eq_false_iff_ne.mpr hkne
  unfold analyze_meta
  rw [foldlM_exc_cons]
  simp only [parse_patterns_single_key k fv hk, hfv, List.map_cons, foldlM_exc_cons,
    foldlM_exc_nil, Option.getD_some, Option.getD_none, hname, bne, hb0, Bool.not_false,
    Bool.true_or, if_true, beq_self_eq_true, Bool.or_self, hr, ebind_ok, ebind_err,
    epure_eq_ok]

/-- Witness for C5's amended statement: the `generator` fixture. -/
theorem c5_missing_meta_content_raises_w :
    ("generator" : String) ≠ "main"
    ∧ lowerStr "Generator" = "generator"
    ∧ analyze_meta [appGenerator] [tagNoContent] [] = .error .typeError :=
  ⟨by decide, rfl,
   c5_missing_meta_content_raises "M" "generator" [] (.str "WordPress") "WordPress" []
     "Generator" [] (compile_regex "WordPress") (by decide) (by decide) rfl rfl rfl⟩

/-- C3 (amended): compiling the malformed pattern `(` does not raise —
the fallback matcher `^$` is substituted — but the fallback's search
succeeds not only on the empty string: `$` also matches just before a
trailing newline, so the search succeeds exactly on the empty string
and on the one-character string `"\n"`; every other candidate never
matches and registers no detection. -/
theorem c3_malformed_regex_inert :
    compile_regex "(" = { ast := fallbackAst, ng := 0, ic := true }
    ∧ ∀ s : String, reSearchBool (compile_regex "(") s = true ↔ (s = "" ∨ s = "\n") := by
  refine ⟨rfl, ?_⟩
  intro s
  have hstep : reSearchBool (compile_regex "(") s
      = (searchLoop true fallbackAst s.toList (s.toList.length + 1) 0).isSome := rfl
  rw [hstep]
  have hfuel : fuelFor fallbackAst s.toList.length = 4 * s.toList.length + 6 + 2 := by
    simp [fuelFor, fallbackAst, sizeR]
    omega
  have hnil : s.toList = [] ↔ s = "" := @string_toList_inj s ""
  have hnl : s.toList = ['\n'] ↔ s = "\n" := @string_toList_inj s "\n"
  simp only [searchLoop, hfuel, runF_fallback, eq_self_iff_true, if_true, Nat.zero_add]
  by_cases hc : (s.toList.isEmpty || s.toList == ['\n']) = true
  · rw [if_pos hc]
    have hc2 : s = "" ∨ s = "\n" := by
      have hl : s.toList = [] ∨ s.toList = ['\n'] := by simpa using hc
      rcases hl with h | h
      · exact Or.inl (hnil.mp h)
      · exact Or.inr (hnl.mp h)
    simp [hc2]
  · rw [if_neg hc]
    rw [searchLoop_fallback_pos true s.toList s.toList.length 1 Nat.one_ne_zero]
    have hc2 : ¬(s = "" ∨ s = "\n") := by
      rintro (h | h)
      · subst h
        exact hc (by simp)
      · subst h
        exact hc (by simp)
    simp [hc2]

/-- Witness for C3's amended statement: the fallback search evaluated
at the newline candidate through the characterization. -/
theorem c3_malformed_regex_inert_w :
    reSearchBool (compile_regex "(") "\n" = true :=
  (c3_malformed_regex_inert.2 "\n").mpr (Or.inr rfl)

end Wappylyzer
